import Mathlib

/-!
Verification development for the `fetch` package of the go-sak utility
library: cookie handling (`cookies.go`) and the resumable HTTP download
engine (request construction, single-file download with range-based
resume, Blake3 integrity hashing, Fibonacci retry backoff, and the
bounded-parallelism multi-file pool).

The cookie functions are embedded directly from `fetch/cookies.go`.
The download engine is embedded from the design specification and the
package's tests, with I/O made explicit: the server is a function from
(attempt index, optional resume offset) to an answer, the destination
file is a byte list, and the Blake3 hex digest is an abstract parameter
`hashFn` (the engine only decides WHAT gets hashed).
-/

namespace GoSak

/-- A key-value pair for a typical HTTP cookie (`fetch/cookies.go`). -/
structure Cookie where
  name : String
  value : String
deriving DecidableEq, Repr

/-- `CookiesToHeader` from `fetch/cookies.go`: renders each cookie as
`name=value` (Go `fmt.Sprintf("%s=%s", ...)` over `lo.Map`) and joins the
parts with `"; "` (Go `strings.Join`). -/
def CookiesToHeader (cookies : List Cookie) : String :=
  String.intercalate "; " (cookies.map (fun c => c.name ++ "=" ++ c.value))

/-- The loop body of `GetFileCookies` from `fetch/cookies.go`, over the list
of lines produced by the scanner, with the Go slice `cookies` as the
accumulator: skip a line that is empty or whose first character is `#`;
split the rest on TAB; skip unless exactly 7 fields; append a cookie built
from fields 5 and 6 (0-based). -/
def getFileCookiesLoop : List String → List Cookie → List Cookie
  | [], acc => acc
  | line :: rest, acc =>
    if line.length = 0 ∨ line.front = '#' then
      getFileCookiesLoop rest acc
    else
      let parts := line.splitOn "\t"
      if h : parts.length = 7 then
        getFileCookiesLoop rest
          (acc ++ [⟨parts.get ⟨5, by omega⟩, parts.get ⟨6, by omega⟩⟩])
      else
        getFileCookiesLoop rest acc

/-- `GetFileCookies` from `fetch/cookies.go`, with the file system made
explicit: the argument is the result of `os.Open` followed by scanning —
`.error e` when the open failed (the Go function returns `nil, err`), and
`.ok lines` with the successfully scanned lines otherwise (the Go function
never checks `scanner.Err()`, so lines after a read error are simply
absent from the list and no error is reported). -/
def GetFileCookies (openResult : Except String (List String)) :
    Except String (List Cookie) :=
  match openResult with
  | .error e => .error e
  | .ok lines => .ok (getFileCookiesLoop lines [])

/-- Spec-side predicate for `GetFileCookies`: a line contributes a cookie
iff it is non-empty, does not start with `#`, and has exactly 7
TAB-separated fields. -/
def specCookieLine (line : String) : Bool :=
  decide (line.length ≠ 0 ∧ line.front ≠ '#' ∧ (line.splitOn "\t").length = 7)

/-- Spec-side extraction for `GetFileCookies`: the cookie formed from the
6th and 7th TAB-separated fields (0-based indices 5 and 6) of a line. -/
def specCookieOf (line : String) : Cookie :=
  let parts := line.splitOn "\t"
  ⟨parts.getD 5 "", parts.getD 6 ""⟩

/-- Modelled from the spec: the `fibonacci` function of the download engine
(its source file is absent; the spec's BackoffPolicy and `TestFibonacci`
pin it): `fib 0 = 0`, `fib 1 = 1`, `fib (n+2) = fib (n+1) + fib n`. -/
def fibonacci : Nat → Nat
  | 0 => 0
  | 1 => 1
  | n + 2 => fibonacci (n + 1) + fibonacci n

/-- Modelled from the spec: the error taxonomy of the download engine
(spec §7); the engine source file is absent from the sources. -/
inductive DlError where
  | invalidRequest (reason : String)
  | httpStatus (code : Nat)
  | transport
  | io (reason : String)
  | cancelled
deriving DecidableEq, Repr

/-- Modelled from the spec: one HTTP answer as consumed by the engine —
status code, optional `Content-Length`, the optional `Total` of a
`Content-Range: bytes A-B/Total` header, and the body bytes. -/
structure HttpResp where
  status : Nat
  contentLength : Option Nat
  contentRangeTotal : Option Nat
  body : List Nat
deriving DecidableEq, Repr

/-- Modelled from the spec: what one outbound request can come back with —
a transport-level failure (DNS/TCP/TLS) or an HTTP answer. -/
inductive ServerAnswer where
  | failure
  | answer (resp : HttpResp)
deriving DecidableEq, Repr

/-- Modelled from the spec: a server behavior, as observed by the engine:
a function from (attempt index, optional `Range` resume offset) to the
answer of that outbound request. -/
abbrev Server := Nat → Option Nat → ServerAnswer

/-- Modelled from the spec: the `Range` header the engine sends — probe the
on-disk file, and request `bytes=<len>-` exactly when the file is
non-empty (spec §4.4 steps 1 and 3). -/
def rangeOf (disk : List Nat) : Option Nat :=
  if disk.length = 0 then none else some disk.length

/-- Modelled from the spec: the outcome of one download attempt — either a
completed transfer (final status and resulting on-disk bytes) or a
transient failure to be retried (its error, status, on-disk bytes). -/
inductive AttemptOutcome where
  | success (status : Nat) (disk : List Nat)
  | transient (e : DlError) (status : Nat) (disk : List Nat)
deriving DecidableEq, Repr

/-- Modelled from the spec: one attempt of the download engine (spec §4.4,
steps 1–5), the engine source file being absent. `200` truncates and
rewrites the file from the body; `206` appends the body to the existing
bytes; `416` means the file is already complete (no bytes transferred);
`5xx` and transport failures are transient. Any other status — `404`
included — completes the download without error, per `TestDownloadFile`
(its "not found" row asserts `NoError` and `StatusCode = 404`, which the
spec's "404 is a terminal `HttpStatus{404}` error" sentence contradicts). -/
def attemptOnce (server : Server) (attempt : Nat) (disk : List Nat) :
    AttemptOutcome :=
  match server attempt (rangeOf disk) with
  | .failure => .transient .transport 0 disk
  | .answer r =>
    if r.status = 200 then
      .success 200 r.body
    else if r.status = 206 then
      .success 206 (disk ++ r.body)
    else if r.status = 416 then
      .success 416 disk
    else if 500 ≤ r.status ∧ r.status ≤ 599 then
      .transient (.httpStatus r.status) r.status disk
    else
      .success r.status (disk ++ r.body)

/-- Modelled from the spec: the caller-visible fields of a resolved
`Response` — final status code, terminal error, and Blake3 hex digest. -/
structure Response where
  statusCode : Nat
  error : Option DlError
  hash : String
deriving DecidableEq, Repr

/-- Modelled from the spec: everything observable about one `DownloadFile`
run — the resolved response, the final on-disk bytes, the number of
outbound HTTP requests issued, and the backoff delays (in seconds) slept
between consecutive attempts. -/
structure RunResult where
  response : Response
  disk : List Nat
  requests : Nat
  delays : List Nat
deriving DecidableEq, Repr

/-- Modelled from the spec: the engine's retry loop (spec §4.4.1) over a
fuel of remaining attempts. A completed attempt finalizes by hashing the
on-disk bytes (`hashFn` is the Blake3 hex digest, kept abstract) and
resolves with no error; a transient failure with no attempts left
resolves with the last observed error and an empty hash; otherwise the
engine sleeps `fibonacci (attempt+1)` seconds and retries, re-probing the
on-disk bytes as the new resume base. -/
def runLoop (hashFn : List Nat → String) (server : Server) :
    Nat → Nat → List Nat → RunResult
  | _, 0, disk => ⟨⟨0, some .transport, ""⟩, disk, 0, []⟩
  | attempt, fuel + 1, disk =>
    match attemptOnce server attempt disk with
    | .success st disk2 => ⟨⟨st, none, hashFn disk2⟩, disk2, 1, []⟩
    | .transient e st disk2 =>
      let rest := runLoop hashFn server (attempt + 1) fuel disk2
      if fuel = 0 then ⟨⟨st, some e, ""⟩, disk2, 1, []⟩
      else
        ⟨rest.response, rest.disk, rest.requests + 1,
          fibonacci (attempt + 1) :: rest.delays⟩

/-- Modelled from the spec: `DownloadFile` on an engine built with retry
count `retries` — attempt 0 runs immediately, and at most `retries`
further attempts follow (the underlying HTTP client performs no retries
of its own, the spec's single-retry-authority assumption). `disk` is the
destination file's byte content when the call starts. -/
def DownloadFile (hashFn : List Nat → String) (server : Server)
    (retries : Nat) (disk : List Nat) : RunResult :=
  runLoop hashFn server 0 (retries + 1) disk

/-- Modelled from the spec: a range-honoring server with canonical content
`content` — no `Range` gets `200` with the full body; `Range: bytes=k-`
with `k` short of the full length gets `206` with the missing suffix and
`Content-Range` total; a `Range` at or past the full length gets `416`. -/
def canonicalServer (content : List Nat) : Server := fun _ range =>
  match range with
  | none => .answer ⟨200, some content.length, none, content⟩
  | some k =>
    if k < content.length then
      .answer ⟨206, some (content.length - k), some content.length,
        content.drop k⟩
    else
      .answer ⟨416, none, none, []⟩

/-- Scan for the first `://` in a character list, accumulating the scheme
characters seen so far; `none` when no `://` occurs. -/
def schemeSplit : List Char → List Char → Option (List Char)
  | acc, ':' :: '/' :: '/' :: _ => some acc.reverse
  | acc, c :: rest => schemeSplit (c :: acc) rest
  | _, [] => none

/-- Modelled from the spec: URL syntax validity as checked eagerly by the
request factory (the engine source file is absent) — an absolute URL
needs a non-empty scheme of plausible scheme characters before `://`, so
`"://invalid-url"` is malformed, as in `TestNewRequest`. -/
def urlValid (s : String) : Bool :=
  match schemeSplit [] s.data with
  | some scheme =>
    !scheme.isEmpty &&
      scheme.all (fun c => c.isAlphanum || c == '+' || c == '-' || c == '.')
  | none => false

/-- Modelled from the spec: the prepared HTTP request held by a validated
`Request` — method, URL and effective headers. -/
structure HttpReq where
  method : String
  url : String
  headers : List (String × String)
deriving DecidableEq, Repr

/-- Modelled from the spec: the immutable download `Request` — target URL,
destination file path, and the eagerly prepared HTTP request. -/
structure Request where
  url : String
  filePath : String
  httpReq : HttpReq
deriving DecidableEq, Repr

/-- Modelled from the spec: engine-level configuration built by `New` —
default headers and the retry count. -/
structure Fetch where
  headers : List (String × String)
  retries : Nat
deriving DecidableEq, Repr

/-- Look up a header value by exact key in an association list. -/
def getHeader (hs : List (String × String)) (key : String) : Option String :=
  (hs.find? (fun p => p.1 == key)).map (fun p => p.2)

/-- Set a header: replace the value under `key` if present, else append. -/
def setHeader (hs : List (String × String)) (key val : String) :
    List (String × String) :=
  if hs.any (fun p => p.1 == key) then
    hs.map (fun p => if p.1 == key then (key, val) else p)
  else
    hs ++ [(key, val)]

/-- Modelled from the spec: the engine's default User-Agent value (the
exact string is configuration and immaterial to the claims). -/
def userAgent : String := "go-sak"

/-- Modelled from the spec: `New(headers, retries)` — start from the
caller's engine-level headers and fill in `User-Agent` and
`Content-Type: application/json` when absent. -/
def New (headers : List (String × String)) (retries : Nat) : Fetch :=
  let h1 :=
    if getHeader headers "User-Agent" = none then
      setHeader headers "User-Agent" userAgent
    else headers
  let h2 :=
    if getHeader h1 "Content-Type" = none then
      setHeader h1 "Content-Type" "application/json"
    else h1
  ⟨h2, retries⟩

/-- Modelled from the spec: `NewRequest(url, filePath, headers)` — validate
the URL eagerly and without I/O; on failure return `InvalidRequest` and
no request; on success prepare a GET request whose headers are the engine
defaults overlaid by the per-request headers, with the engine's own
`User-Agent` re-imposed. -/
def NewRequest (f : Fetch) (url filePath : String)
    (reqHeaders : List (String × String)) : Except DlError Request :=
  if urlValid url then
    let overlaid := reqHeaders.foldl (fun acc kv => setHeader acc kv.1 kv.2) f.headers
    let eff :=
      match getHeader f.headers "User-Agent" with
      | some ua => setHeader overlaid "User-Agent" ua
      | none => overlaid
    .ok ⟨url, filePath, ⟨"GET", url, eff⟩⟩
  else
    .error (.invalidRequest "failed to create request")

/-- Modelled from the spec: the scheduling state of `DownloadFiles` — how
many requests have not yet started, how many engines are live (in flight
between issuing their HTTP request and signaling done), and how many have
completed. -/
structure PoolState where
  pending : Nat
  running : Nat
  completed : Nat
deriving DecidableEq, Repr

/-- Modelled from the spec: one scheduling step of the `DownloadFiles`
worker pool (spec §4.5, §5) — a pending request may start only while
fewer than `parallelism` engines are live, and a live engine may finish. -/
inductive PoolStep (parallelism : Nat) : PoolState → PoolState → Prop
  | start (s : PoolState) (hp : 0 < s.pending) (hr : s.running < parallelism) :
      PoolStep parallelism s ⟨s.pending - 1, s.running + 1, s.completed⟩
  | finish (s : PoolState) (hr : 0 < s.running) :
      PoolStep parallelism s ⟨s.pending, s.running - 1, s.completed + 1⟩

/-- Reflexive-transitive closure of `PoolStep`: the pool states reachable
from a given state. -/
inductive PoolReachable (parallelism : Nat) (start : PoolState) :
    PoolState → Prop
  | refl : PoolReachable parallelism start start
  | step {s t : PoolState} (hs : PoolReachable parallelism start s)
      (ht : PoolStep parallelism s t) : PoolReachable parallelism start t

/-- Modelled from the spec: the pool state at the moment `DownloadFiles` is
called with a batch of `numRequests` requests — nothing started yet. -/
def DownloadFilesStart (numRequests : Nat) : PoolState :=
  ⟨numRequests, 0, 0⟩

/-- Folding a separator in front of each element, left to right: the tail
part of Go `strings.Join` after its first element. -/
def sepFold (s : String) : List String → String
  | [] => ""
  | a :: as => s ++ a ++ sepFold s as

/-- A fixed 404 answer for every request: the server of `TestDownloadFile`'s
"not found" row. -/
def server404 : Server := fun _ _ => .answer ⟨404, none, none, []⟩

/-- A stand-in digest function for concrete evaluations: every byte list
hashes to the fixed string `"h"`. -/
def hashConst : List Nat → String := fun _ => "h"

end GoSak

namespace GoSak

theorem getFileCookiesLoop_spec (lines : List String) (acc : List Cookie) :
    getFileCookiesLoop lines acc =
      acc ++ (lines.filter specCookieLine).map specCookieOf := by
  induction lines generalizing acc with
  | nil => simp [getFileCookiesLoop]
  | cons line rest ih =>
    by_cases h0 : line.length = 0 ∨ line.front = '#'
    · have hs : specCookieLine line = false := by
        simp only [specCookieLine, decide_eq_false_iff_not]
        rcases h0 with h | h <;> simp [h]
      simp [getFileCookiesLoop, h0, List.filter_cons, hs, ih]
    · by_cases h7 : (line.splitOn "\t").length = 7
      · have hs : specCookieLine line = true := by
          simp only [specCookieLine, decide_eq_true_eq]
          push_neg at h0
          exact ⟨h0.1, h0.2, h7⟩
        have hc : specCookieOf line =
            ⟨(line.splitOn "\t").get ⟨5, by omega⟩,
             (line.splitOn "\t").get ⟨6, by omega⟩⟩ := by
          have h5 : 5 < (line.splitOn "\t").length := by omega
          have h6 : 6 < (line.splitOn "\t").length := by omega
          simp [specCookieOf, List.get_eq_getElem, List.getElem?_eq_getElem,
            h5, h6]
        simp [getFileCookiesLoop, h0, h7, List.filter_cons, hs, hc, ih]
      · have hs : specCookieLine line = false := by
          simp [specCookieLine, h7]
        simp [getFileCookiesLoop, h0, h7, List.filter_cons, hs, ih]

theorem runLoop_success (hashFn : List Nat → String) (server : Server)
    (a : Nat) (d : List Nat) (st : Nat) (d2 : List Nat) (f : Nat)
    (hA : attemptOnce server a d = .success st d2) :
    runLoop hashFn server a (f + 1) d = ⟨⟨st, none, hashFn d2⟩, d2, 1, []⟩ := by
  simp [runLoop, hA]

theorem runLoop_transient_last (hashFn : List Nat → String) (server : Server)
    (a : Nat) (d : List Nat) (e : DlError) (st : Nat) (d2 : List Nat)
    (hA : attemptOnce server a d = .transient e st d2) :
    runLoop hashFn server a 1 d = ⟨⟨st, some e, ""⟩, d2, 1, []⟩ := by
  simp [runLoop, hA]

theorem runLoop_transient_step (hashFn : List Nat → String) (server : Server)
    (a : Nat) (d : List Nat) (e : DlError) (st : Nat) (d2 : List Nat) (f : Nat)
    (hA : attemptOnce server a d = .transient e st d2) :
    runLoop hashFn server a (f + 1 + 1) d =
      ⟨(runLoop hashFn server (a + 1) (f + 1) d2).response,
       (runLoop hashFn server (a + 1) (f + 1) d2).disk,
       (runLoop hashFn server (a + 1) (f + 1) d2).requests + 1,
       fibonacci (a + 1) :: (runLoop hashFn server (a + 1) (f + 1) d2).delays⟩ := by
  conv_lhs => rw [runLoop]
  simp [hA]

theorem runLoop_requests_le (hashFn : List Nat → String) (server : Server) :
    ∀ (fuel a : Nat) (d : List Nat),
      (runLoop hashFn server a fuel d).requests ≤ fuel := by
  intro fuel
  induction fuel with
  | zero => intro a d; simp [runLoop]
  | succ f ih =>
    intro a d
    cases hA : attemptOnce server a d with
    | success st d2 => simp [runLoop_success hashFn server a d st d2 f hA]
    | transient e st d2 =>
      cases f with
      | zero => simp [runLoop_transient_last hashFn server a d e st d2 hA]
      | succ f2 =>
        rw [runLoop_transient_step hashFn server a d e st d2 f2 hA]
        have h := ih (a + 1) d2
        simpa using Nat.add_le_add_right h 1

theorem runLoop_requests_pos (hashFn : List Nat → String) (server : Server)
    (fuel a : Nat) (d : List Nat) :
    1 ≤ (runLoop hashFn server a (fuel + 1) d).requests := by
  cases hA : attemptOnce server a d with
  | success st d2 => simp [runLoop_success hashFn server a d st d2 fuel hA]
  | transient e st d2 =>
    cases fuel with
    | zero => simp [runLoop_transient_last hashFn server a d e st d2 hA]
    | succ f2 =>
      rw [runLoop_transient_step hashFn server a d e st d2 f2 hA]
      simp

theorem runLoop_error_iff_hash (hashFn : List Nat → String) (server : Server)
    (hne : ∀ b, hashFn b ≠ "") :
    ∀ (fuel a : Nat) (d : List Nat),
      ((runLoop hashFn server a fuel d).response.error = none ↔
        (runLoop hashFn server a fuel d).response.hash ≠ "") := by
  intro fuel
  induction fuel with
  | zero => intro a d; simp [runLoop]
  | succ f ih =>
    intro a d
    cases hA : attemptOnce server a d with
    | success st d2 =>
      simp [runLoop_success hashFn server a d st d2 f hA, hne d2]
    | transient e st d2 =>
      cases f with
      | zero => simp [runLoop_transient_last hashFn server a d e st d2 hA]
      | succ f2 =>
        rw [runLoop_transient_step hashFn server a d e st d2 f2 hA]
        exact ih (a + 1) d2

theorem runLoop_delays (hashFn : List Nat → String) (server : Server) :
    ∀ (fuel a : Nat) (d : List Nat),
      (runLoop hashFn server a fuel d).delays =
        (List.range' (a + 1)
          ((runLoop hashFn server a fuel d).requests - 1)).map fibonacci := by
  intro fuel
  induction fuel with
  | zero => intro a d; simp [runLoop]
  | succ f ih =>
    intro a d
    cases hA : attemptOnce server a d with
    | success st d2 => simp [runLoop_success hashFn server a d st d2 f hA]
    | transient e st d2 =>
      cases f with
      | zero => simp [runLoop_transient_last hashFn server a d e st d2 hA]
      | succ f2 =>
        rw [runLoop_transient_step hashFn server a d e st d2 f2 hA]
        have hpos := runLoop_requests_pos hashFn server f2 (a + 1) d2
        obtain ⟨k, hk⟩ : ∃ k,
            (runLoop hashFn server (a + 1) (f2 + 1) d2).requests = k + 1 :=
          ⟨(runLoop hashFn server (a + 1) (f2 + 1) d2).requests - 1, by omega⟩
        simp only [ih (a + 1) d2, hk]
        simp [List.range'_succ]

theorem attemptOnce_5xx (server : Server) (a : Nat) (d : List Nat)
    (r : HttpResp) (hS : server a (rangeOf d) = .answer r)
    (h5 : 500 ≤ r.status ∧ r.status ≤ 599) :
    attemptOnce server a d = .transient (.httpStatus r.status) r.status d := by
  simp only [attemptOnce, hS]
  rw [if_neg (by omega), if_neg (by omega), if_neg (by omega), if_pos h5]

theorem attemptOnce_other (server : Server) (a : Nat) (d : List Nat)
    (r : HttpResp) (hS : server a (rangeOf d) = .answer r)
    (h200 : r.status ≠ 200) (h206 : r.status ≠ 206) (h416 : r.status ≠ 416)
    (h5 : ¬(500 ≤ r.status ∧ r.status ≤ 599)) :
    attemptOnce server a d = .success r.status (d ++ r.body) := by
  simp only [attemptOnce, hS]
  rw [if_neg h200, if_neg h206, if_neg h416, if_neg h5]

theorem runLoop_all5xx (hashFn : List Nat → String) (server : Server)
    (statusFn : Nat → Nat)
    (hS : ∀ n off, server n off = .answer ⟨statusFn n, none, none, []⟩)
    (h5 : ∀ n, 500 ≤ statusFn n ∧ statusFn n ≤ 599) :
    ∀ (fuel a : Nat) (d : List Nat),
      (runLoop hashFn server a (fuel + 1) d).requests = fuel + 1 ∧
      (runLoop hashFn server a (fuel + 1) d).response.error =
        some (.httpStatus (statusFn (a + fuel))) := by
  intro fuel
  induction fuel with
  | zero =>
    intro a d
    have hA := attemptOnce_5xx server a d ⟨statusFn a, none, none, []⟩
      (hS a (rangeOf d)) (h5 a)
    simp [runLoop_transient_last hashFn server a d _ _ _ hA]
  | succ f ih =>
    intro a d
    have hA := attemptOnce_5xx server a d ⟨statusFn a, none, none, []⟩
      (hS a (rangeOf d)) (h5 a)
    rw [runLoop_transient_step hashFn server a d _ _ _ f hA]
    have h := ih (a + 1) d
    have hc : a + 1 + f = a + (f + 1) := by omega
    rw [hc] at h
    simpa using h

theorem intercalate_go_eq (s : String) :
    ∀ (as : List String) (acc : String),
      String.intercalate.go acc s as = acc ++ sepFold s as := by
  intro as
  induction as with
  | nil => intro acc; simp [String.intercalate.go, sepFold]
  | cons a as ih =>
    intro acc
    simp [String.intercalate.go, sepFold, ih, String.append_assoc]

/-- C1: for every server content and every split `k ≤ N` whose first `k`
bytes are already on disk, a `DownloadFile` against a range-honoring
server completes without error, leaves the on-disk file byte-identical to
the full content, and reports the digest of the full content. -/
theorem c1_resume_correctness (hashFn : List Nat → String) (content : List Nat)
    (k retries : Nat) (hk : k ≤ content.length) :
    (DownloadFile hashFn (canonicalServer content) retries
        (content.take k)).response.error = none ∧
    (DownloadFile hashFn (canonicalServer content) retries
        (content.take k)).disk = content ∧
    (DownloadFile hashFn (canonicalServer content) retries
        (content.take k)).response.hash = hashFn content := by
  have hlen : (content.take k).length = k := by
    rw [List.length_take]
    exact Nat.min_eq_left hk
  have hA : ∃ st, attemptOnce (canonicalServer content) 0 (content.take k) =
      .success st content := by
    by_cases hk0 : k = 0
    · subst hk0
      exact ⟨200, by simp [attemptOnce, canonicalServer, rangeOf]⟩
    · have hro : rangeOf (content.take k) = some k := by
        simp [rangeOf, hlen, hk0]
      by_cases hlt : k < content.length
      · refine ⟨206, ?_⟩
        simp [attemptOnce, hro, canonicalServer, hlt]
      · have hke : k = content.length := by omega
        subst hke
        refine ⟨416, ?_⟩
        rw [List.take_length] at hro ⊢
        simp [attemptOnce, hro, canonicalServer, hlt]
  obtain ⟨st, hA⟩ := hA
  rw [DownloadFile, runLoop_success hashFn (canonicalServer content) 0
    (content.take k) st content retries hA]
  simp

/-- C1 witness: content `[1, 2, 3]` with its first 2 bytes on disk. -/
theorem c1_resume_correctness_witness :
    2 ≤ ([1, 2, 3] : List Nat).length ∧
    ((DownloadFile hashConst (canonicalServer [1, 2, 3]) 0
        (([1, 2, 3] : List Nat).take 2)).response.error = none ∧
     (DownloadFile hashConst (canonicalServer [1, 2, 3]) 0
        (([1, 2, 3] : List Nat).take 2)).disk = [1, 2, 3] ∧
     (DownloadFile hashConst (canonicalServer [1, 2, 3]) 0
        (([1, 2, 3] : List Nat).take 2)).response.hash = hashConst [1, 2, 3]) :=
  ⟨by decide, c1_resume_correctness hashConst [1, 2, 3] 2 0 (by decide)⟩

/-- C2: the number of outbound HTTP requests issued by `DownloadFile` is at
most `retries + 1` (the model's single retry loop is the only retry
authority, the underlying client performing none), and when every attempt
fails with a `5xx`, the run exhausts all `retries + 1` attempts and
resolves with the last observed error. -/
theorem c2_retry_bound :
    (∀ (hashFn : List Nat → String) (server : Server) (retries : Nat)
        (d : List Nat),
      (DownloadFile hashFn server retries d).requests ≤ retries + 1) ∧
    (∀ (hashFn : List Nat → String) (server : Server) (statusFn : Nat → Nat)
        (retries : Nat) (d : List Nat),
      (∀ n off, server n off = .answer ⟨statusFn n, none, none, []⟩) →
      (∀ n, 500 ≤ statusFn n ∧ statusFn n ≤ 599) →
      (DownloadFile hashFn server retries d).requests = retries + 1 ∧
      (DownloadFile hashFn server retries d).response.error =
        some (.httpStatus (statusFn retries))) := by
  constructor
  · intro hashFn server retries d
    exact runLoop_requests_le hashFn server (retries + 1) 0 d
  · intro hashFn server statusFn retries d hS h5
    have h := runLoop_all5xx hashFn server statusFn hS h5 retries 0 d
    simpa using h

/-- C2 witness: a server that always answers `500`, retry count 2. -/
theorem c2_retry_bound_witness :
    (DownloadFile hashConst (fun _ _ => .answer ⟨500, none, none, []⟩) 2
      []).requests = 2 + 1 ∧
    (DownloadFile hashConst (fun _ _ => .answer ⟨500, none, none, []⟩) 2
      []).response.error = some (.httpStatus 500) :=
  c2_retry_bound.2 hashConst (fun _ _ => .answer ⟨500, none, none, []⟩)
    (fun _ => 500) 2 [] (fun _ _ => rfl) (fun _ => by simp)

/-- C3 counterexample: on a server that answers `404 Not Found`,
`DownloadFile` resolves with an EMPTY error (and status code 404), so the
claim that the Response's error is non-empty after done is false — as the
package's own `TestDownloadFile` "not found" row asserts (`NoError`,
`StatusCode = 404`). -/
theorem c3_not_found_counterexample :
    (DownloadFile hashConst server404 1 []).response.error = none ∧
    (DownloadFile hashConst server404 1 []).response.statusCode = 404 := by
  constructor <;> rfl

/-- C3 amended: when the server answers a download request with `404 Not
Found`, `DownloadFile` does not retry (exactly one outbound request) and
resolves the Response with status code 404 and an empty error. -/
theorem c3_not_found_amended (hashFn : List Nat → String) (server : Server)
    (retries : Nat) (d : List Nat) (r : HttpResp)
    (hS : server 0 (rangeOf d) = .answer r) (h404 : r.status = 404) :
    (DownloadFile hashFn server retries d).requests = 1 ∧
    (DownloadFile hashFn server retries d).response.statusCode = 404 ∧
    (DownloadFile hashFn server retries d).response.error = none := by
  have hA := attemptOnce_other server 0 d r hS (by omega) (by omega) (by omega)
    (by omega)
  rw [DownloadFile, runLoop_success hashFn server 0 d r.status (d ++ r.body)
    retries hA]
  simp [h404]

/-- C3 amended witness: the all-404 server at concrete inputs. -/
theorem c3_not_found_amended_witness :
    (DownloadFile hashConst server404 1 []).requests = 1 ∧
    (DownloadFile hashConst server404 1 []).response.statusCode = 404 ∧
    (DownloadFile hashConst server404 1 []).response.error = none :=
  c3_not_found_amended hashConst server404 1 [] ⟨404, none, none, []⟩ rfl rfl

/-- C4: for every resolved `DownloadFile` response, the error is empty iff
the hash is non-empty — a completion without error carries the (non-empty)
digest of the on-disk bytes, and every failing completion carries an empty
hash (the digest function never produces an empty string: a Blake3
lowercase-hex digest has 64 characters). -/
theorem c4_error_hash_exclusivity (hashFn : List Nat → String)
    (hne : ∀ b, hashFn b ≠ "") (server : Server) (retries : Nat)
    (d : List Nat) :
    ((DownloadFile hashFn server retries d).response.error = none ↔
      (DownloadFile hashFn server retries d).response.hash ≠ "") :=
  runLoop_error_iff_hash hashFn server hne (retries + 1) 0 d

/-- C4 witness: the stand-in digest (a fixed non-empty string) on the
all-404 server. -/
theorem c4_error_hash_exclusivity_witness :
    ((DownloadFile hashConst server404 0 []).response.error = none ↔
      (DownloadFile hashConst server404 0 []).response.hash ≠ "") :=
  c4_error_hash_exclusivity hashConst (fun b => by simp [hashConst])
    server404 0 []

/-- C5: when the server answers `416 Range Not Satisfiable`, `DownloadFile`
treats the download as success with zero bytes transferred: the status
code is retained as 416, the error is empty, the hash is the digest of
the existing on-disk content, the on-disk bytes are unchanged, and no
retry happens. -/
theorem c5_already_complete_416 (hashFn : List Nat → String) (server : Server)
    (retries : Nat) (d : List Nat) (r : HttpResp)
    (hS : server 0 (rangeOf d) = .answer r) (h416 : r.status = 416) :
    (DownloadFile hashFn server retries d).response.statusCode = 416 ∧
    (DownloadFile hashFn server retries d).response.error = none ∧
    (DownloadFile hashFn server retries d).response.hash = hashFn d ∧
    (DownloadFile hashFn server retries d).disk = d ∧
    (DownloadFile hashFn server retries d).requests = 1 := by
  have hA : attemptOnce server 0 d = .success 416 d := by
    simp [attemptOnce, hS, h416]
  rw [DownloadFile, runLoop_success hashFn server 0 d 416 d retries hA]
  simp

/-- C5 witness: destination `[7]` already complete, all-416 server. -/
theorem c5_already_complete_416_witness :
    (DownloadFile hashConst (fun _ _ => .answer ⟨416, none, none, []⟩) 1
      [7]).response.statusCode = 416 ∧
    (DownloadFile hashConst (fun _ _ => .answer ⟨416, none, none, []⟩) 1
      [7]).response.error = none ∧
    (DownloadFile hashConst (fun _ _ => .answer ⟨416, none, none, []⟩) 1
      [7]).response.hash = hashConst [7] ∧
    (DownloadFile hashConst (fun _ _ => .answer ⟨416, none, none, []⟩) 1
      [7]).disk = [7] ∧
    (DownloadFile hashConst (fun _ _ => .answer ⟨416, none, none, []⟩) 1
      [7]).requests = 1 :=
  c5_already_complete_416 hashConst (fun _ _ => .answer ⟨416, none, none, []⟩)
    1 [7] ⟨416, none, none, []⟩ rfl rfl

/-- C6: `NewRequest` validates URL syntax eagerly and purely — on a
malformed URL it fails with an `InvalidRequest` error and returns no
request, and every request whose construction succeeded records the given
URL (which is syntactically valid) and destination path and holds a
prepared GET HTTP request. -/
theorem c6_new_request_validation (engineHeaders : List (String × String))
    (retries : Nat) (url filePath : String)
    (reqHeaders : List (String × String)) :
    (urlValid url = false →
      NewRequest (New engineHeaders retries) url filePath reqHeaders =
        .error (.invalidRequest "failed to create request")) ∧
    (∀ req,
      NewRequest (New engineHeaders retries) url filePath reqHeaders = .ok req →
      urlValid req.url = true ∧ req.httpReq.method = "GET" ∧
      req.url = url ∧ req.filePath = filePath) := by
  constructor
  · intro h
    simp [NewRequest, h]
  · intro req h
    by_cases hv : urlValid url = true
    · rw [NewRequest, if_pos hv] at h
      simp only [Except.ok.injEq] at h
      subst h
      exact ⟨hv, rfl, rfl, rfl⟩
    · rw [NewRequest, if_neg hv] at h
      simp at h

/-- C6 witness: the malformed URL of `TestNewRequest` fails, and a
well-formed URL yields a request with a valid URL. -/
theorem c6_new_request_validation_witness :
    NewRequest (New [] 3) "://invalid-url" "/tmp/file.txt" [] =
      .error (.invalidRequest "failed to create request") ∧
    urlValid "https://example.com/file.txt" = true :=
  ⟨(c6_new_request_validation [] 3 "://invalid-url" "/tmp/file.txt" []).1
      (by decide),
   ((c6_new_request_validation [] 3 "https://example.com/file.txt"
        "/tmp/file.txt" []).2
      ⟨"https://example.com/file.txt", "/tmp/file.txt",
       ⟨"GET", "https://example.com/file.txt",
        [("User-Agent", "go-sak"), ("Content-Type", "application/json")]⟩⟩
      (by rfl)).1⟩

/-- C7: the Fibonacci backoff schedule — `fib 0 = 0`, `fib 1 = 1`,
`fib (n+2) = fib (n+1) + fib n`, attempt 0 starts with no delay, and for
every run the delay slept between attempts `n` and `n+1` is
`fib (n+1)` seconds: the delays list is `fib 1, fib 2, …` in order. -/
theorem c7_backoff_shape :
    fibonacci 0 = 0 ∧ fibonacci 1 = 1 ∧
    (∀ n, fibonacci (n + 2) = fibonacci (n + 1) + fibonacci n) ∧
    (∀ (hashFn : List Nat → String) (server : Server) (retries : Nat)
        (d : List Nat),
      (DownloadFile hashFn server retries d).delays =
        (List.range ((DownloadFile hashFn server retries d).requests - 1)).map
          (fun n => fibonacci (n + 1))) := by
  refine ⟨rfl, rfl, fun n => rfl, ?_⟩
  intro hashFn server retries d
  have h := runLoop_delays hashFn server (retries + 1) 0 d
  have h2 : (DownloadFile hashFn server retries d).delays =
      (List.range' 1 ((DownloadFile hashFn server retries d).requests - 1)).map
        fibonacci := by
    simpa using h
  rw [h2, List.range'_eq_map_range, List.map_map]
  exact List.map_congr_left (fun a _ => by simp [Nat.add_comm])

/-- C8: in the `DownloadFiles` pool, from the initial state of any batch,
every reachable scheduling state has at most `parallelism` engines live —
a pending request starts only while a worker slot is free. -/
theorem c8_pool_parallelism_bound (parallelism numRequests : Nat)
    (s : PoolState) (_hp : 1 ≤ parallelism)
    (hr : PoolReachable parallelism (DownloadFilesStart numRequests) s) :
    s.running ≤ parallelism := by
  induction hr with
  | refl => simp [DownloadFilesStart]
  | step hs ht ih =>
    cases ht with
    | start hpend hrun =>
      dsimp only
      exact hrun
    | finish hrunpos =>
      dsimp only
      omega

/-- C8 witness: batch of 5, parallelism 2, after one start step. -/
theorem c8_pool_parallelism_bound_witness :
    (⟨4, 1, 0⟩ : PoolState).running ≤ 2 :=
  c8_pool_parallelism_bound 2 5 ⟨4, 1, 0⟩ (by decide)
    (PoolReachable.step PoolReachable.refl
      (PoolStep.start (DownloadFilesStart 5) (by decide) (by decide)))

/-- C9: `CookiesToHeader` maps the empty list to the empty string, and a
non-empty list to the pairs `name=value` (names and values verbatim)
joined by `"; "` in list order. -/
theorem c9_cookies_to_header :
    CookiesToHeader [] = "" ∧
    ∀ (c : Cookie) (cs : List Cookie),
      CookiesToHeader (c :: cs) =
        c.name ++ "=" ++ c.value ++
          (if cs = [] then "" else "; " ++ CookiesToHeader cs) := by
  constructor
  · rfl
  · intro c cs
    cases cs with
    | nil =>
      simp [CookiesToHeader, String.intercalate, intercalate_go_eq, sepFold]
    | cons d ds =>
      simp [CookiesToHeader, String.intercalate, intercalate_go_eq, sepFold,
        String.append_assoc]

/-- C10: `GetFileCookies` returns an error exactly when the open fails;
otherwise it returns, in file order, the cookies formed from the 6th and
7th TAB-separated fields of every line that is non-empty, does not start
with `#`, and has exactly 7 TAB-separated fields — all other lines (and
scanner errors after a successful open, which leave later lines out of
the scanned list without surfacing an error) are silently skipped. -/
theorem c10_get_file_cookies :
    (∀ e, GetFileCookies (.error e) = .error e) ∧
    (∀ lines, GetFileCookies (.ok lines) =
      .ok ((lines.filter specCookieLine).map specCookieOf)) := by
  constructor
  · intro e
    rfl
  · intro lines
    simp [GetFileCookies, getFileCookiesLoop_spec]

end GoSak
